import Mathlib

/-!
Verification development for the FlexDAO demand-flexibility simulation
(`backend/simulate.py`).  The simulation is embedded shallowly over `ℚ`:
every float of the source becomes a rational, so the "within floating-point
tolerance" clauses of the specification become exact equalities.  The seeded
numpy generator is modelled as an explicit infinite stream of draws
`rng : ℕ → ℚ`, consumed in exactly the order of the source (five draws per
household during population generation, then per household: one noise draw
per slot followed by at most one response draw per day).  The distribution
transforms (`normal`, `uniform`, `choice`) are abstracted as affine images of
the raw draws; the structure of the computation downstream of each draw is
translated literally from the source.  Timestamp parsing is abstracted: a
slot carries its half-hour-of-day index `hod` (`hour*2 + (1 if minute>=30
else 0)`) and an abstract day label `date` standing for the `"YYYY-MM-DD"`
prefix of its `from` timestamp (label order mirrors lexicographic date
order).
-/

namespace FlexSim

/-- One record of `carbon_week.json`.  `actualI` models
`slot["intensity"].get("actual")` (`none` covers both a missing key and an
explicit JSON `null`), `forecastI` models the `forecast` field
(`none` = missing key). -/
structure SlotRec where
  hod : ℕ
  date : ℕ
  actualI : Option ℚ
  forecastI : Option ℚ
deriving DecidableEq, Repr

/-- The intensity value the engine uses for a slot, translating line 124 of
`simulate.py`: `slot["intensity"].get("actual") or slot["intensity"].get("forecast", 0)`.
Python `or` returns the right operand whenever the left is falsy, i.e. when
`actual` is missing, `null`, or the number `0`; `.get("forecast", 0)` is
`Option.getD 0`. -/
def usedIntensity (a f : Option ℚ) : ℚ :=
  match a with
  | some x => if x = 0 then f.getD 0 else x
  | none => f.getD 0

/-- The "duck curve" baseline demand multiplier by half-hour-of-day
(`_duck_curve_base`, lines 53-73).  `hours = h / 2.0`. -/
def duckCurve (h : ℕ) : ℚ :=
  let hr : ℚ := (h : ℚ) / 2
  if hr < 6 then 0.3
  else if hr < 8 then 0.3 + 0.7 * (hr - 6) / 2
  else if hr < 12 then 0.85 - 0.15 * (hr - 8) / 4
  else if hr < 16 then 0.7
  else if hr < 18 then 0.7 + 0.6 * (hr - 16) / 2
  else if hr < 21 then 1.3 - 0.1 * (hr - 18) / 3
  else if hr < 23 then 1 - 0.5 * (hr - 21) / 2
  else 0.35

/-- Fraction of demand that is flexible, by half-hour-of-day
(`_flexible_fraction_profile`, lines 76-91). -/
def flexProfile (h : ℕ) : ℚ :=
  let hr : ℚ := (h : ℚ) / 2
  if hr < 6 then 0.7
  else if hr < 9 then 0.4
  else if hr < 16 then 0.5
  else if hr < 20 then 0.15
  else 0.6

/-- Python's `round(x, d)` on rationals.  (CPython rounds ties to even on
the underlying binary float; on the rationals reached by this development
the two conventions only differ at exact half-ulp ties, and no claim
depends on the tie direction.) -/
def pyRound (d : ℕ) (x : ℚ) : ℚ := ((round (x * (10 : ℚ) ^ d) : ℤ) : ℚ) / (10 : ℚ) ^ d

/-- Python's `int(x)`: truncation toward zero. -/
def pyInt (x : ℚ) : ℤ := if 0 ≤ x then ⌊x⌋ else ⌈x⌉

/-- `np.median`: sort ascending, take the middle element (odd length) or
the mean of the two middle elements (even length).  `np.median([])` warns
and yields `nan`; it is never reached by the simulation, `0` here. -/
def npMedian (l : List ℚ) : ℚ :=
  let s := l.insertionSort (· ≤ ·)
  let m := l.length
  if m = 0 then 0
  else if m % 2 = 1 then s.getD (m / 2) 0
  else (s.getD (m / 2 - 1) 0 + s.getD (m / 2) 0) / 2

/-- `np.min` of a list whose emptiness the source guards (`if len(day_slots) > 0 else 0`,
line 270). -/
def npMin : List ℚ → ℚ
  | [] => 0
  | h :: t => t.foldl min h

/-- `np.max` of a nonempty list.  The simulation reaches this only behind
the nonempty-input check of `simulate`; `0` on `[]` is never observed. -/
def npMax : List ℚ → ℚ
  | [] => 0
  | h :: t => t.foldl max h

/-- Number of households (`N_HOUSEHOLDS = 25`). -/
def N_HOUSEHOLDS : ℕ := 25

/-- High-carbon threshold in gCO2/kWh (`HIGH_THRESHOLD = 150`). -/
def HIGH_THRESHOLD : ℚ := 150

/-- A synthesized household record (lines 143-159). -/
structure Household where
  peak_demand_kw : ℚ
  max_shift_fraction : ℚ
  max_shift_hours : ℚ
  p_respond : ℚ
  flex_assets : String
deriving DecidableEq, Repr

/-- The fixed appliance-mix label set (lines 151-157). -/
def assetLabels : List String :=
  ["EV + heat pump", "EV + dishwasher + battery", "Heat pump + laundry",
   "EV + battery", "Heat pump + dishwasher"]

/-- One household from five consecutive draws `k..k+4` of the stream
(lines 141-158).  `normal (m, s)` is modelled as `m + s * draw`,
`uniform (a, b)` as `a + (b - a) * draw`, and `rng.choice` as one draw
selecting an index into the label list. -/
def mkHousehold (rng : ℕ → ℚ) (k : ℕ) : Household :=
  { peak_demand_kw := max 0.8 (pyRound 2 (1.8 + 0.4 * rng k))
    max_shift_fraction := pyRound 2 (0.2 + (0.4 - 0.2) * rng (k + 1))
    max_shift_hours := pyRound 1 (2 + (4 - 2) * rng (k + 2))
    p_respond := pyRound 2 (0.5 + (0.95 - 0.5) * rng (k + 3))
    flex_assets := assetLabels.getD ((pyInt (5 * rng (k + 4))).toNat % 5) "" }

/-- The population of `N_HOUSEHOLDS` households, generated first and in
order from the stream (lines 139-159). -/
def genHouseholds (rng : ℕ → ℚ) : List Household :=
  (List.range N_HOUSEHOLDS).map fun i => mkHousehold rng (5 * i)

/-- Placeholder slot used for out-of-range list access; the simulation only
ever reads indices below the slot count. -/
def defaultSlot : SlotRec := ⟨0, 0, none, none⟩

/-- Slot record at index `t`. -/
def slotAt (carbon : List SlotRec) (t : ℕ) : SlotRec := carbon.getD t defaultSlot

/-- `unique_days = sorted(set(day_ids))` (line 135): the distinct day
labels, ascending. -/
def uniqueDays (carbon : List SlotRec) : List ℕ :=
  ((carbon.map SlotRec.date).dedup).insertionSort (· ≤ ·)

/-- The slot-index arrays the engine builds from the input (lines 113-136):
slot count, per-slot half-hour-of-day, per-slot used intensity, per-slot day
index (position of the slot's day label in `uniqueDays`), and the day
count. -/
structure HCtx where
  n : ℕ
  hod : ℕ → ℕ
  intens : ℕ → ℚ
  dayOf : ℕ → ℕ
  nDays : ℕ

/-- Build the slot index from the parsed input. -/
def mkCtx (carbon : List SlotRec) : HCtx :=
  { n := carbon.length
    hod := fun t => (slotAt carbon t).hod
    intens := fun t => usedIntensity (slotAt carbon t).actualI (slotAt carbon t).forecastI
    dayOf := fun t => (uniqueDays carbon).indexOf (slotAt carbon t).date
    nDays := (uniqueDays carbon).length }

/-- The slots of day `d` in chronological order (`np.where(day_of_slot == day)`,
line 224). -/
def daySlotsC (c : HCtx) (d : ℕ) : List ℕ :=
  (List.range c.n).filter (fun t => c.dayOf t = d)

/-- Pass-1 state of one household (lines 179-219): the per-day response
decisions (`responded_today`, `none` = day not yet decided), the per-day
shifted energy in kWh (`shifted_energy_today`, a dict whose entries are
created at `0.0`, so a total function defaulting to `0` is observationally
identical), the working `shifted` and `shift_amount` arrays, and the index
of the next unconsumed rng draw. -/
structure P1State where
  responded : ℕ → Option Bool
  energy : ℕ → ℚ
  shifted : ℕ → ℚ
  amt : ℕ → ℚ
  k : ℕ

/-- One iteration of the Pass-1 loop body (lines 186-219) at slot `t`. -/
def pass1Step (c : HCtx) (hh : Household) (rng : ℕ → ℚ) (baseline : ℕ → ℚ)
    (maxDaily : ℚ) (st : P1State) (t : ℕ) : P1State :=
  if c.intens t < HIGH_THRESHOLD then st
  else
    let day := c.dayOf t
    let drawn : Bool := (st.responded day).getD (decide (rng st.k < hh.p_respond))
    let responded1 : ℕ → Option Bool := fun d => if d = day then some drawn else st.responded d
    let k1 : ℕ := if st.responded day = none then st.k + 1 else st.k
    let st1 : P1State := { st with responded := responded1, k := k1 }
    if drawn then
      let e := st.energy day
      if hh.max_shift_hours ≤ e / max hh.peak_demand_kw 0.1 then st1
      else if maxDaily ≤ e then st1
      else
        let curtail := min (baseline t * flexProfile (c.hod t)) ((maxDaily - e) / 0.5)
        let s2 := max (st.shifted t - curtail) 0.05
        { st1 with
          energy := fun d => if d = day then e + (baseline t - s2) * 0.5 else st.energy d
          shifted := fun u => if u = t then s2 else st.shifted u
          amt := fun u => if u = t then baseline t - s2 else st.amt u }
    else st1

/-- Pass 1: fold the loop body over all slots in time order, starting from
the untouched state (`shifted = baseline.copy()`, all dicts empty, next
draw at `k0`). -/
def pass1 (c : HCtx) (hh : Household) (rng : ℕ → ℚ) (baseline : ℕ → ℚ)
    (maxDaily : ℚ) (k0 : ℕ) : P1State :=
  (List.range c.n).foldl (pass1Step c hh rng baseline maxDaily)
    { responded := fun _ => none, energy := fun _ => 0, shifted := baseline
      amt := fun _ => 0, k := k0 }

/-- Whether a half-hour-of-day index lies in a preferred reallocation
window (lines 236-240): `h < 6` or `10 <= h < 14` with `h = slot_hod[t] / 2.0`. -/
def preferredHod (h : ℕ) : Bool :=
  decide ((h : ℚ) / 2 < 6) || (decide ((10 : ℚ) ≤ (h : ℚ) / 2) && decide ((h : ℚ) / 2 < 14))

/-- Pass-2 target-slot selection for day `d` (lines 230-246): below-median
slots in a preferred window, else all below-median slots, else the day's
first six slots. -/
def targetsC (c : HCtx) (d : ℕ) : List ℕ :=
  let ds := daySlotsC c d
  let med := npMedian (ds.map c.intens)
  let pref := ds.filter (fun t => preferredHod (c.hod t) && decide (c.intens t < med))
  if pref = [] then
    let low := ds.filter (fun t => decide (c.intens t < med))
    if low = [] then ds.take 6 else low
  else pref

/-- Pass 2 for one day (lines 222-251): if any energy was curtailed that
day, spread it evenly in kW across the target slots
(`shifted[t] += add_per_slot` for each target). -/
def pass2Day (c : HCtx) (amt : ℕ → ℚ) (s : ℕ → ℚ) (d : ℕ) : ℕ → ℚ :=
  let ds := daySlotsC c d
  let curtailed := ((ds.map amt).sum) * 0.5
  if curtailed ≤ 0 then s
  else
    let ts := targetsC c d
    let add := curtailed / ((ts.length : ℚ) * 0.5)
    ts.foldl (fun f u => fun v => if v = u then f u + add else f v) s

/-- Pass 2 over every day of the week in order (line 222). -/
def pass2All (c : HCtx) (amt : ℕ → ℚ) (s : ℕ → ℚ) : ℕ → ℚ :=
  (List.range c.nDays).foldl (pass2Day c amt) s

/-- Per-household simulation result: the three time series, the per-day
energy budget the household used, and the index of the first rng draw left
unconsumed (threaded to the next household, as all households share the
one seeded generator). -/
structure HHResult where
  baseline : ℕ → ℚ
  shifted : ℕ → ℚ
  amt : ℕ → ℚ
  maxDaily : ℚ
  kEnd : ℕ

/-- The full two-pass computation for one household (lines 167-253), with
noise draws at `k0..k0+n-1` (`rng.normal(0, 0.05, size=n_slots)` modelled
as `0.05 * draw` each) and Pass-1 response draws from `k0+n` on.
`baseline = np.clip(DUCK_CURVE[slot_hod] * pk * noise, 0.05, None)`;
`max_daily_shift_energy = max_shift_fraction * np.sum(baseline) / len(unique_days)`
(note: `np.sum(baseline)` is a sum of kW samples, not a kWh energy). -/
def hhRun (c : HCtx) (rng : ℕ → ℚ) (hh : Household) (k0 : ℕ) : HHResult :=
  let baseline : ℕ → ℚ := fun t =>
    max (duckCurve (c.hod t) * hh.peak_demand_kw * (1 + 0.05 * rng (k0 + t))) 0.05
  let maxDaily : ℚ := hh.max_shift_fraction * ((List.range c.n).map baseline).sum / (c.nDays : ℚ)
  let st := pass1 c hh rng baseline maxDaily (k0 + c.n)
  { baseline := baseline
    shifted := pass2All c st.amt st.shifted
    amt := st.amt
    maxDaily := maxDaily
    kEnd := st.k }

/-- Run the households in order, threading the rng draw index (the source's
single `rng` object, lines 167-253). -/
def runHouseholds (c : HCtx) (rng : ℕ → ℚ) : List Household → ℕ → List HHResult
  | [], _ => []
  | hh :: rest, k =>
    let r := hhRun c rng hh k
    r :: runHouseholds c rng rest r.kEnd

/-- Placeholder result for out-of-range household indices. -/
def dHHResult : HHResult :=
  { baseline := fun _ => 0, shifted := fun _ => 0, amt := fun _ => 0, maxDaily := 0, kEnd := 0 }

/-- All 25 per-household results.  Population generation consumes draws
`0..124` (five per household), so the first household's noise draws start
at 125. -/
def hhResults (rng : ℕ → ℚ) (carbon : List SlotRec) : List HHResult :=
  runHouseholds (mkCtx carbon) rng (genHouseholds rng) (5 * N_HOUSEHOLDS)

/-- Result of household `hi`. -/
def resultAt (rng : ℕ → ℚ) (carbon : List SlotRec) (hi : ℕ) : HHResult :=
  (hhResults rng carbon).getD hi dHHResult

/-- `shift_amount_all[hi, t]`. -/
def amtAt (rng : ℕ → ℚ) (carbon : List SlotRec) (hi t : ℕ) : ℚ :=
  (resultAt rng carbon hi).amt t

/-- The household record of index `hi` as generated. -/
def dHousehold : Household := ⟨0, 0, 0, 0, ""⟩

/-- Household parameters of household `hi`. -/
def householdAt (rng : ℕ → ℚ) (hi : ℕ) : Household :=
  (genHouseholds rng).getD hi dHousehold

/-- `day_low = np.min(intensities[day_slots]) if len(day_slots) > 0 else 0`
(line 270). -/
def dayLowC (c : HCtx) (d : ℕ) : ℚ := npMin ((daySlotsC c d).map c.intens)

/-- `hh_rewards[hi]`: the reward loop of lines 267-282.  Per day, per
high-carbon slot of that day, per household with positive curtailment:
`shifted_kwh * (intensity - day_low) / 1000`. -/
def hhRewards (rng : ℕ → ℚ) (carbon : List SlotRec) (hi : ℕ) : ℚ :=
  let c := mkCtx carbon
  ((List.range c.nDays).map fun d =>
    (((daySlotsC c d).filter fun t => decide (HIGH_THRESHOLD ≤ c.intens t)).map fun t =>
      let sk := amtAt rng carbon hi t
      if 0 < sk then sk * 0.5 * (c.intens t - dayLowC c d) / 1000 else 0).sum).sum

/-- `hh_carbon_avoided[hi]` (gCO2), same loop without the `/ 1000`. -/
def hhCarbonAvoided (rng : ℕ → ℚ) (carbon : List SlotRec) (hi : ℕ) : ℚ :=
  let c := mkCtx carbon
  ((List.range c.nDays).map fun d =>
    (((daySlotsC c d).filter fun t => decide (HIGH_THRESHOLD ≤ c.intens t)).map fun t =>
      let sk := amtAt rng carbon hi t
      if 0 < sk then sk * 0.5 * (c.intens t - dayLowC c d) else 0).sum).sum

/-- `hh_total_shifted_kwh[hi]`, accumulated in the same loop. -/
def hhTotalShiftedKwh (rng : ℕ → ℚ) (carbon : List SlotRec) (hi : ℕ) : ℚ :=
  let c := mkCtx carbon
  ((List.range c.nDays).map fun d =>
    (((daySlotsC c d).filter fun t => decide (HIGH_THRESHOLD ≤ c.intens t)).map fun t =>
      let sk := amtAt rng carbon hi t
      if 0 < sk then sk * 0.5 else 0).sum).sum

/-- `agg_baseline = np.sum(baseline_all, axis=0)` (line 256), as a list over
slots. -/
def aggBaselineL (rng : ℕ → ℚ) (carbon : List SlotRec) : List ℚ :=
  (List.range (mkCtx carbon).n).map fun t =>
    ((List.range N_HOUSEHOLDS).map fun hi => (resultAt rng carbon hi).baseline t).sum

/-- `agg_shifted = np.sum(shifted_all, axis=0)` (line 257). -/
def aggShiftedL (rng : ℕ → ℚ) (carbon : List SlotRec) : List ℚ :=
  (List.range (mkCtx carbon).n).map fun t =>
    ((List.range N_HOUSEHOLDS).map fun hi => (resultAt rng carbon hi).shifted t).sum

/-- A participant entry of one slot event (lines 305-308): the household's
index and the recorded `round(float(sk), 3)`. -/
structure Participant where
  idx : ℕ
  shifted_kw : ℚ
deriving DecidableEq, Repr

/-- One record of `flex_responses.json`'s `events` array (lines 288-315).
`slot` stands for the slot's timestamps. -/
structure SlotEvent where
  slot : ℕ
  intensity_actual : ℤ
  flex_requested : Bool
  participants : List Participant
  aggregate_shifted_kw : ℚ
deriving DecidableEq, Repr

/-- The participant list of one high-carbon slot event (lines 302-308):
households with raw `shift_amount > 0.001`, recorded with kW rounded to
three decimals. -/
def slotParticipants (rng : ℕ → ℚ) (carbon : List SlotRec) (t : ℕ) : List Participant :=
  (List.range N_HOUSEHOLDS).filterMap fun hi =>
    let sk := amtAt rng carbon hi t
    if 0.001 < sk then some ⟨hi, pyRound 3 sk⟩ else none

/-- The per-slot event list (lines 288-315).  `intensity_actual = int(intensities[t])`;
`flex_requested = intensity_actual >= 150`; participants are the households
with `shift_amount > 0.001` at a high-carbon slot, with rounded kW; the
aggregate is the sum of the raw amounts of those participants, rounded
once at the end. -/
def flexEvents (rng : ℕ → ℚ) (carbon : List SlotRec) : List SlotEvent :=
  let c := mkCtx carbon
  (List.range c.n).map fun t =>
    let ai : ℤ := pyInt (c.intens t)
    let isHigh : Bool := decide (150 ≤ ai)
    let parts : List Participant :=
      if isHigh then slotParticipants rng carbon t else []
    let agg : ℚ :=
      if isHigh then
        pyRound 3 ((List.range N_HOUSEHOLDS).map fun hi =>
          let sk := amtAt rng carbon hi t
          if 0.001 < sk then sk else 0).sum
      else 0
    ⟨t, ai, isHigh, parts, agg⟩

/-- The `summary` object of `flex_responses.json` (lines 330-341). -/
structure Summary where
  n_households : ℕ
  total_slots : ℕ
  high_carbon_slots : ℕ
  total_shifted_kwh : ℚ
  avg_participants_per_event : ℚ
  peak_demand_reduction_pct : ℚ
  total_carbon_avoided_gCO2 : ℚ
  total_tokens_issued : ℚ
  peak_baseline_kw : ℚ
  peak_shifted_kw : ℚ
deriving DecidableEq, Repr

/-- One entry of the `households` array of `flex_responses.json`
(lines 346-359). -/
structure HouseholdOut where
  idx : ℕ
  peak_demand_kw : ℚ
  max_shift_fraction : ℚ
  max_shift_hours : ℚ
  p_respond : ℚ
  flex_assets : String
  total_shifted_kwh : ℚ
  carbon_avoided_gCO2 : ℚ
  tokens_earned : ℚ
deriving DecidableEq, Repr

/-- The result model of one run: the structured output plus the in-memory
(unrounded) per-household time series, which the files render with
per-field rounding. -/
structure Output where
  summary : Summary
  households : List HouseholdOut
  events : List SlotEvent
  baselineSeries : List (List ℚ)
  shiftedSeries : List (List ℚ)
  shiftAmountSeries : List (List ℚ)
deriving DecidableEq

/-- The error text of `np.max` on a zero-length array (line 318 on an empty
input). -/
def emptyArrayMsg : String :=
  "zero-size array to reduction operation maximum which has no identity"

/-- The whole simulation (`simulate()`, lines 102-449), from the parsed
carbon input and the abstract draw stream to the result model.  On an
empty input every upstream loop is vacuous and the run dies with a
`ValueError` at `np.max(agg_baseline)` (line 318), modelled as
`Except.error`; the guard is hoisted to the front, which is observationally
identical because all values computed before line 318 are pure. -/
def simulate (rng : ℕ → ℚ) (carbon : List SlotRec) : Except String Output :=
  let c := mkCtx carbon
  if carbon.length = 0 then Except.error emptyArrayMsg
  else
    let events := flexEvents rng carbon
    let highEvents := events.filter fun e => e.flex_requested
    let peakB := npMax (aggBaselineL rng carbon)
    let peakS := npMax (aggShiftedL rng carbon)
    let pct := if 0 < peakB then pyRound 1 ((1 - peakS / peakB) * 100) else 0
    let totalShifted := (highEvents.map fun e => e.aggregate_shifted_kw * 0.5).sum
    let avgPart :=
      if highEvents = [] then 0
      else ((highEvents.map fun e => (e.participants.length : ℚ)).sum) / (highEvents.length : ℚ)
    let totalCarbon := ((List.range N_HOUSEHOLDS).map fun hi => hhCarbonAvoided rng carbon hi).sum
    let totalTokens := ((List.range N_HOUSEHOLDS).map fun hi => hhRewards rng carbon hi).sum
    Except.ok
      { summary :=
          { n_households := N_HOUSEHOLDS
            total_slots := c.n
            high_carbon_slots := highEvents.length
            total_shifted_kwh := pyRound 2 totalShifted
            avg_participants_per_event := pyRound 1 avgPart
            peak_demand_reduction_pct := pct
            total_carbon_avoided_gCO2 := pyRound 0 totalCarbon
            total_tokens_issued := pyRound 1 totalTokens
            peak_baseline_kw := pyRound 1 peakB
            peak_shifted_kw := pyRound 1 peakS }
        households := (List.range N_HOUSEHOLDS).map fun hi =>
          let hh := householdAt rng hi
          { idx := hi
            peak_demand_kw := hh.peak_demand_kw
            max_shift_fraction := hh.max_shift_fraction
            max_shift_hours := hh.max_shift_hours
            p_respond := hh.p_respond
            flex_assets := hh.flex_assets
            total_shifted_kwh := pyRound 2 (hhTotalShiftedKwh rng carbon hi)
            carbon_avoided_gCO2 := pyRound 0 (hhCarbonAvoided rng carbon hi)
            tokens_earned := pyRound 1 (hhRewards rng carbon hi) }
        events := events
        baselineSeries := (List.range N_HOUSEHOLDS).map fun hi =>
          (List.range c.n).map (resultAt rng carbon hi).baseline
        shiftedSeries := (List.range N_HOUSEHOLDS).map fun hi =>
          (List.range c.n).map (resultAt rng carbon hi).shifted
        shiftAmountSeries := (List.range N_HOUSEHOLDS).map fun hi =>
          (List.range c.n).map (resultAt rng carbon hi).amt }

/-- The per-day energy budget of household `hi`
(`max_daily_shift_energy`, line 180). -/
def maxDailyAt (rng : ℕ → ℚ) (carbon : List SlotRec) (hi : ℕ) : ℚ :=
  (resultAt rng carbon hi).maxDaily

/-- The household's total weekly baseline energy in kWh
(half-hour samples, so `Σ baseline * 0.5`). -/
def weeklyBaselineKwh (rng : ℕ → ℚ) (carbon : List SlotRec) (hi : ℕ) : ℚ :=
  (((List.range (mkCtx carbon).n).map (resultAt rng carbon hi).baseline).sum) * 0.5

/-- Modelled from the spec (for comparison with `maxDailyAt`): the per-day
budget as the specification words it, "`max_shift_fraction` times the
household's total weekly baseline energy in kWh divided by the number of
unique days". -/
def specWeeklyKwhBudget (rng : ℕ → ℚ) (carbon : List SlotRec) (hi : ℕ) : ℚ :=
  (householdAt rng hi).max_shift_fraction * weeklyBaselineKwh rng carbon hi /
    ((mkCtx carbon).nDays : ℚ)

/-! ### Elementary facts about the profiles and list sums -/

lemma flexProfile_pos (h : ℕ) : 0 < flexProfile h := by
  simp only [flexProfile]
  split_ifs <;> norm_num

lemma sum_map_sub (l : List ℕ) (f g : ℕ → ℚ) :
    (l.map fun t => f t - g t).sum = (l.map f).sum - (l.map g).sum := by
  induction l with
  | nil => simp
  | cons a l ih => simp only [List.map_cons, List.sum_cons, ih]; ring

/-! ### Pass-1 invariants -/

/-- The Pass-1 loop invariant for one household: `shifted` and
`shift_amount` stay linked pointwise (line 217 defines the recorded
amount as `baseline[t] - shifted[t]`), recorded curtailment is
nonnegative, bounded by the flexible portion of the slot and by
`baseline - 0.05`, and nonzero only at high-carbon slots. -/
def P1Inv (c : HCtx) (baseline : ℕ → ℚ) (st : P1State) : Prop :=
  (∀ t, st.shifted t = baseline t - st.amt t) ∧
  (∀ t, 0 ≤ st.amt t) ∧
  (∀ t, st.amt t ≤ baseline t * flexProfile (c.hod t)) ∧
  (∀ t, st.amt t ≤ baseline t - 0.05) ∧
  (∀ t, st.amt t ≠ 0 → HIGH_THRESHOLD ≤ c.intens t)

/-- Each Pass-1 iteration either leaves `shifted`/`shift_amount` unchanged
or curtails the visited high-carbon slot by some nonnegative kW value `q`
bounded by the slot's flexible portion, flooring the result at 0.05. -/
lemma pass1Step_cases (c : HCtx) (hh : Household) (rng : ℕ → ℚ) (baseline : ℕ → ℚ)
    (maxDaily : ℚ) (hb : ∀ u, (0.05 : ℚ) ≤ baseline u) (st : P1State) (t : ℕ) :
    ((pass1Step c hh rng baseline maxDaily st t).amt = st.amt ∧
     (pass1Step c hh rng baseline maxDaily st t).shifted = st.shifted) ∨
    (HIGH_THRESHOLD ≤ c.intens t ∧ ∃ q : ℚ, 0 ≤ q ∧ q ≤ baseline t * flexProfile (c.hod t) ∧
      (pass1Step c hh rng baseline maxDaily st t).shifted =
        (fun u => if u = t then max (st.shifted t - q) 0.05 else st.shifted u) ∧
      (pass1Step c hh rng baseline maxDaily st t).amt =
        (fun u => if u = t then baseline t - max (st.shifted t - q) 0.05 else st.amt u)) := by
  simp only [pass1Step]
  by_cases h1 : c.intens t < HIGH_THRESHOLD
  · simp only [if_pos h1]
    exact Or.inl ⟨by trivial, by trivial⟩
  · simp only [if_neg h1]
    by_cases h2 : (st.responded (c.dayOf t)).getD (decide (rng st.k < hh.p_respond)) = true
    · simp only [if_pos h2]
      by_cases h3 : hh.max_shift_hours ≤ st.energy (c.dayOf t) / max hh.peak_demand_kw 0.1
      · simp only [if_pos h3]
        exact Or.inl ⟨by trivial, by trivial⟩
      · simp only [if_neg h3]
        by_cases h4 : maxDaily ≤ st.energy (c.dayOf t)
        · simp only [if_pos h4]
          exact Or.inl ⟨by trivial, by trivial⟩
        · simp only [if_neg h4]
          refine Or.inr ⟨le_of_not_lt h1,
            min (baseline t * flexProfile (c.hod t)) ((maxDaily - st.energy (c.dayOf t)) / 0.5),
            ?_, min_le_left _ _, by trivial, by trivial⟩
          refine le_min
            (mul_nonneg (le_trans (by norm_num) (hb t)) (le_of_lt (flexProfile_pos _))) ?_
          have h5 : (0 : ℚ) ≤ maxDaily - st.energy (c.dayOf t) := by
            have := lt_of_not_le h4
            linarith
          exact div_nonneg h5 (by norm_num)
    · simp only [if_neg h2]
      exact Or.inl ⟨by trivial, by trivial⟩

/-- Pass-1 iterations preserve the invariant at slots not yet visited. -/
lemma pass1Step_inv (c : HCtx) (hh : Household) (rng : ℕ → ℚ) (baseline : ℕ → ℚ)
    (maxDaily : ℚ) (hb : ∀ u, (0.05 : ℚ) ≤ baseline u) (st : P1State) (t : ℕ)
    (h0 : st.amt t = 0) (hInv : P1Inv c baseline st) :
    P1Inv c baseline (pass1Step c hh rng baseline maxDaily st t) := by
  obtain ⟨I1, I5, I3, I6, I4⟩ := hInv
  rcases pass1Step_cases c hh rng baseline maxDaily hb st t with
    ⟨ha, hs⟩ | ⟨hhigh, q, hq0, hqf, hs, ha⟩
  · exact ⟨fun u => by rw [ha, hs]; exact I1 u, fun u => by rw [ha]; exact I5 u,
      fun u => by rw [ha]; exact I3 u, fun u => by rw [ha]; exact I6 u,
      fun u hu => I4 u (by rwa [ha] at hu)⟩
  · have hbt : st.shifted t = baseline t := by rw [I1 t, h0]; ring
    refine ⟨fun u => ?_, fun u => ?_, fun u => ?_, fun u => ?_, fun u hne => ?_⟩
    · simp only [ha, hs]
      split_ifs with hu
      · rw [hu]; ring
      · exact I1 u
    · simp only [ha]
      split_ifs with hu
      · rw [hbt]
        exact sub_nonneg.mpr (max_le (by linarith) (hb t))
      · exact I5 u
    · simp only [ha]
      split_ifs with hu
      · rw [hu, hbt]
        have h2 := le_max_left (baseline t - q) (0.05 : ℚ)
        linarith
      · exact I3 u
    · simp only [ha]
      split_ifs with hu
      · rw [hu, hbt]
        have h2 := le_max_right (baseline t - q) (0.05 : ℚ)
        linarith
      · exact I6 u
    · simp only [ha] at hne
      split_ifs at hne with hut
      · rw [hut]; exact hhigh
      · exact I4 u hne

/-- Folding Pass-1 over a duplicate-free list of unvisited slots preserves
the invariant. -/
lemma pass1_fold_inv (c : HCtx) (hh : Household) (rng : ℕ → ℚ) (baseline : ℕ → ℚ)
    (maxDaily : ℚ) (hb : ∀ u, (0.05 : ℚ) ≤ baseline u) :
    ∀ (l : List ℕ) (st : P1State), l.Nodup → (∀ t ∈ l, st.amt t = 0) →
      P1Inv c baseline st →
      P1Inv c baseline (l.foldl (pass1Step c hh rng baseline maxDaily) st) := by
  intro l
  induction l with
  | nil => exact fun st _ _ h => h
  | cons a l ih =>
    intro st hnd h0 hInv
    rw [List.foldl_cons]
    have hna : a ∉ l := (List.nodup_cons.mp hnd).1
    refine ih _ (List.nodup_cons.mp hnd).2 (fun t ht => ?_)
      (pass1Step_inv c hh rng baseline maxDaily hb st a (h0 a (List.mem_cons_self a l)) hInv)
    have hta : t ≠ a := fun h => hna (h ▸ ht)
    rcases pass1Step_cases c hh rng baseline maxDaily hb st a with
      ⟨ha, _⟩ | ⟨_, q, _, _, _, ha⟩
    · rw [ha]; exact h0 t (List.mem_cons_of_mem _ ht)
    · rw [ha]; simp only [if_neg hta]; exact h0 t (List.mem_cons_of_mem _ ht)

/-- The invariant holds of the full Pass-1 result. -/
lemma pass1_inv (c : HCtx) (hh : Household) (rng : ℕ → ℚ) (baseline : ℕ → ℚ)
    (maxDaily : ℚ) (k0 : ℕ) (hb : ∀ u, (0.05 : ℚ) ≤ baseline u) :
    P1Inv c baseline (pass1 c hh rng baseline maxDaily k0) := by
  unfold pass1
  refine pass1_fold_inv c hh rng baseline maxDaily hb _ _ (List.nodup_range _) (fun _ _ => rfl)
    ⟨fun t => by simp, fun t => le_refl 0,
     fun t => mul_nonneg (le_trans (by norm_num) (hb t)) (le_of_lt (flexProfile_pos _)),
     fun t => by have := hb t; simp only; linarith,
     fun t h => absurd rfl h⟩

/-! ### Pass-2 lemmas -/

/-- The Pass-2 accumulation loop (`for t in target_slots: shifted[t] += add_per_slot`)
leaves slots outside the target list untouched. -/
lemma foldAdd_not_mem (add : ℚ) :
    ∀ (ts : List ℕ) (s : ℕ → ℚ) (u : ℕ), u ∉ ts →
      (ts.foldl (fun f w => fun v => if v = w then f w + add else f v) s) u = s u := by
  intro ts
  induction ts with
  | nil => intro s u _; rfl
  | cons a ts ih =>
    intro s u hu
    rw [List.foldl_cons]
    rw [ih _ u (fun h => hu (List.mem_cons_of_mem _ h))]
    have hua : u ≠ a := fun h => hu (by rw [h]; exact List.mem_cons_self a ts)
    simp only [if_neg hua]

/-- The Pass-2 accumulation loop only increases `shifted` when the spread
amount is nonnegative. -/
lemma foldAdd_le (add : ℚ) (hadd : 0 ≤ add) :
    ∀ (ts : List ℕ) (s : ℕ → ℚ) (u : ℕ),
      s u ≤ (ts.foldl (fun f w => fun v => if v = w then f w + add else f v) s) u := by
  intro ts
  induction ts with
  | nil => intro s u; exact le_refl _
  | cons a ts ih =>
    intro s u
    rw [List.foldl_cons]
    refine le_trans ?_ (ih _ u)
    by_cases hu : u = a
    · rw [if_pos hu, hu]; linarith
    · rw [if_neg hu]

/-- Adding `add` at one slot of a duplicate-free slot list raises the list
sum by `add`. -/
lemma sum_map_update (add : ℚ) :
    ∀ (ds : List ℕ), ds.Nodup → ∀ (s : ℕ → ℚ) (w : ℕ), w ∈ ds →
      (ds.map fun v => if v = w then s w + add else s v).sum = (ds.map s).sum + add := by
  intro ds
  induction ds with
  | nil => intro _ s w hw; cases hw
  | cons a ds ih =>
    intro hnd s w hw
    obtain ⟨hna, hnd2⟩ := List.nodup_cons.mp hnd
    by_cases haw : a = w
    · have hwds : w ∉ ds := haw ▸ hna
      rw [List.map_cons, List.sum_cons, if_pos haw,
        List.map_congr_left (fun v hv => if_neg (fun h : v = w => hwds (h ▸ hv))),
        List.map_cons, List.sum_cons, haw]
      ring
    · have hwds : w ∈ ds := by
        rcases List.mem_cons.mp hw with h | h
        · exact absurd h.symm haw
        · exact h
      rw [List.map_cons, List.sum_cons, if_neg (fun h : a = w => haw h),
        ih hnd2 s w hwds, List.map_cons, List.sum_cons]
      ring

/-- Total effect of the Pass-2 accumulation loop on the day sum: every
target visit adds `add` once. -/
lemma foldAdd_sum (add : ℚ) (ds : List ℕ) (hnd : ds.Nodup) :
    ∀ (ts : List ℕ) (s : ℕ → ℚ), (∀ w ∈ ts, w ∈ ds) →
      (ds.map (ts.foldl (fun f w => fun v => if v = w then f w + add else f v) s)).sum =
        (ds.map s).sum + (ts.length : ℚ) * add := by
  intro ts
  induction ts with
  | nil => intro s _; simp
  | cons a ts ih =>
    intro s hsub
    rw [List.foldl_cons, ih _ (fun w hw => hsub w (List.mem_cons_of_mem _ hw)),
      sum_map_update add ds hnd s a (hsub a (List.mem_cons_self a ts))]
    simp only [List.length_cons]
    push_cast
    ring

/-- Membership in a day's slot list. -/
lemma mem_daySlots {c : HCtx} {d t : ℕ} :
    t ∈ daySlotsC c d ↔ t < c.n ∧ c.dayOf t = d := by
  unfold daySlotsC
  rw [List.mem_filter, List.mem_range]
  simp

/-- A day's slot list has no duplicates. -/
lemma daySlots_nodup (c : HCtx) (d : ℕ) : (daySlotsC c d).Nodup :=
  (List.nodup_range c.n).filter _

/-- Every chosen target slot belongs to the day. -/
lemma targetsC_subset (c : HCtx) (d : ℕ) : ∀ t ∈ targetsC c d, t ∈ daySlotsC c d := by
  intro t ht
  simp only [targetsC] at ht
  split_ifs at ht
  · exact List.take_subset 6 _ ht
  · exact List.mem_of_mem_filter ht
  · exact List.mem_of_mem_filter ht

/-- A day with at least one slot always yields a nonempty target list: the
last fallback takes the day's first six slots. -/
lemma targetsC_ne_nil (c : HCtx) (d : ℕ) (h : daySlotsC c d ≠ []) : targetsC c d ≠ [] := by
  simp only [targetsC]
  split_ifs with h1 h2
  · intro hc
    rcases List.take_eq_nil_iff.mp hc with h6 | h6
    · exact absurd h6 (by norm_num)
    · exact h h6
  · exact h2
  · exact h1

/-- Pass 2 for day `d` does not touch slots outside day `d`. -/
lemma pass2Day_not_mem (c : HCtx) (amt s : ℕ → ℚ) (d u : ℕ) (hu : u ∉ daySlotsC c d) :
    pass2Day c amt s d u = s u := by
  simp only [pass2Day]
  split_ifs
  · rfl
  · exact foldAdd_not_mem _ _ _ _ (fun h => hu (targetsC_subset c d u h))

/-- Pass 2 never decreases a slot's `shifted` value (the spread amount is
nonnegative whenever the day curtailed anything). -/
lemma pass2Day_le (c : HCtx) (amt s : ℕ → ℚ) (d u : ℕ) (hamt : ∀ v, 0 ≤ amt v) :
    s u ≤ pass2Day c amt s d u := by
  simp only [pass2Day]
  split_ifs with h1
  · exact le_refl _
  · refine foldAdd_le _ ?_ _ _ _
    have hc : (0 : ℚ) ≤ ((daySlotsC c d).map amt).sum * 0.5 := by
      have := List.sum_nonneg (l := (daySlotsC c d).map amt) (by
        intro x hx
        obtain ⟨v, _, rfl⟩ := List.mem_map.mp hx
        exact hamt v)
      linarith
    have hden : (0 : ℚ) ≤ (((targetsC c d).length : ℚ) * 0.5) := by positivity
    exact div_nonneg hc hden

/-- Effect of Pass 2 for day `d` on that day's sum of `shifted`: exactly
the day's curtailed kW total is re-added (spread cancels the division). -/
lemma pass2Day_daySum (c : HCtx) (amt s : ℕ → ℚ) (d : ℕ) (hamt : ∀ v, 0 ≤ amt v) :
    ((daySlotsC c d).map (pass2Day c amt s d)).sum =
      ((daySlotsC c d).map s).sum + ((daySlotsC c d).map amt).sum := by
  simp only [pass2Day]
  have hsum_nonneg : (0 : ℚ) ≤ ((daySlotsC c d).map amt).sum :=
    List.sum_nonneg (by
      intro x hx
      obtain ⟨v, _, rfl⟩ := List.mem_map.mp hx
      exact hamt v)
  split_ifs with h1
  · have hz : ((daySlotsC c d).map amt).sum = 0 := le_antisymm (by linarith) hsum_nonneg
    rw [hz, add_zero]
  · have hpos : (0 : ℚ) < ((daySlotsC c d).map amt).sum * 0.5 := lt_of_not_le h1
    have hds : daySlotsC c d ≠ [] := by
      intro h
      rw [h] at hpos
      norm_num at hpos
    have hts := targetsC_ne_nil c d hds
    have hlen : ((targetsC c d).length : ℚ) ≠ 0 := by
      simpa using fun h2 => hts (List.length_eq_zero.mp h2)
    rw [foldAdd_sum _ _ (daySlots_nodup c d) _ _ (targetsC_subset c d)]
    field_simp
    ring

/-- Pass 2 leaves every slot of an unprocessed day untouched. -/
lemma foldDays_untouched (c : HCtx) (amt : ℕ → ℚ) :
    ∀ (L : List ℕ) (s : ℕ → ℚ) (u : ℕ), c.dayOf u ∉ L →
      (L.foldl (pass2Day c amt) s) u = s u := by
  intro L
  induction L with
  | nil => intro s u _; rfl
  | cons a L ih =>
    intro s u hu
    rw [List.foldl_cons, ih _ u (fun h => hu (List.mem_cons_of_mem _ h))]
    refine pass2Day_not_mem c amt s a u (fun h => ?_)
    exact hu ((mem_daySlots.mp h).2 ▸ List.mem_cons_self a L)

/-- Pass 2 across all days never decreases any slot. -/
lemma pass2All_le (c : HCtx) (amt s : ℕ → ℚ) (u : ℕ) (hamt : ∀ v, 0 ≤ amt v) :
    s u ≤ pass2All c amt s u := by
  unfold pass2All
  generalize List.range c.nDays = L
  induction L generalizing s with
  | nil => exact le_refl _
  | cons a L ih =>
    rw [List.foldl_cons]
    exact le_trans (pass2Day_le c amt s a u hamt) (ih _)

/-- Pass 2 across all days re-adds, within each day of the input, exactly
the total curtailed kW of that day. -/
lemma pass2All_daySum (c : HCtx) (amt s : ℕ → ℚ) (d : ℕ) (hd : d < c.nDays)
    (hamt : ∀ v, 0 ≤ amt v) :
    ((daySlotsC c d).map (pass2All c amt s)).sum =
      ((daySlotsC c d).map s).sum + ((daySlotsC c d).map amt).sum := by
  unfold pass2All
  obtain ⟨l1, l2, heq⟩ := List.append_of_mem (List.mem_range.mpr hd)
  have hnd : (l1 ++ d :: l2).Nodup := heq ▸ List.nodup_range c.nDays
  have hd1 : d ∉ l1 := fun h =>
    (List.nodup_append.mp hnd).2.2 h (List.mem_cons_self d l2)
  have hd2 : d ∉ l2 := (List.nodup_cons.mp (List.nodup_append.mp hnd).2.1).1
  rw [heq, List.foldl_append, List.foldl_cons]
  have huntouched2 : ∀ u ∈ daySlotsC c d,
      (l2.foldl (pass2Day c amt) (pass2Day c amt (l1.foldl (pass2Day c amt) s) d)) u =
        (pass2Day c amt (l1.foldl (pass2Day c amt) s) d) u := by
    intro u hu
    exact foldDays_untouched c amt l2 _ u (by rw [(mem_daySlots.mp hu).2]; exact hd2)
  rw [List.map_congr_left huntouched2, pass2Day_daySum c amt _ d hamt]
  have huntouched1 : ∀ u ∈ daySlotsC c d,
      (l1.foldl (pass2Day c amt) s) u = s u := by
    intro u hu
    exact foldDays_untouched c amt l1 s u (by rw [(mem_daySlots.mp hu).2]; exact hd1)
  rw [List.map_congr_left huntouched1]

/-! ### Day structure of the slot index built by `mkCtx` -/

lemma uniqueDays_nodup (carbon : List SlotRec) : (uniqueDays carbon).Nodup :=
  ((List.perm_insertionSort (· ≤ ·) _).nodup_iff).mpr (carbon.map SlotRec.date).nodup_dedup

lemma mem_uniqueDays {carbon : List SlotRec} {x : ℕ} :
    x ∈ uniqueDays carbon ↔ x ∈ carbon.map SlotRec.date := by
  unfold uniqueDays
  rw [(List.perm_insertionSort (· ≤ ·) _).mem_iff, List.mem_dedup]

lemma slotAt_mem {carbon : List SlotRec} {t : ℕ} (h : t < carbon.length) :
    slotAt carbon t ∈ carbon := by
  unfold slotAt
  rw [List.getD_eq_getElem carbon defaultSlot h]
  exact List.getElem_mem h

/-- Every slot's day index is a valid index into the unique-day list. -/
lemma dayOf_lt_nDays {carbon : List SlotRec} {t : ℕ} (h : t < carbon.length) :
    (mkCtx carbon).dayOf t < (mkCtx carbon).nDays := by
  simp only [mkCtx]
  exact List.indexOf_lt_length.mpr
    (mem_uniqueDays.mpr (List.mem_map_of_mem _ (slotAt_mem h)))

/-- Every day index below the day count owns at least one slot. -/
lemma daySlots_mkCtx_ne_nil {carbon : List SlotRec} {d : ℕ} (hd : d < (mkCtx carbon).nDays) :
    daySlotsC (mkCtx carbon) d ≠ [] := by
  have hd2 : d < (uniqueDays carbon).length := hd
  have hmem : (uniqueDays carbon)[d] ∈ carbon.map SlotRec.date :=
    mem_uniqueDays.mp (List.getElem_mem hd2)
  obtain ⟨s, hs, hsd⟩ := List.mem_map.mp hmem
  obtain ⟨i, hi⟩ := List.mem_iff_get.mp hs
  refine List.ne_nil_of_mem (a := (i : ℕ)) (mem_daySlots.mpr ⟨i.isLt, ?_⟩)
  have hslot : slotAt carbon (i : ℕ) = s := by
    unfold slotAt
    rw [List.getD_eq_getElem carbon defaultSlot i.isLt, ← hi]
    simp [List.get_eq_getElem]
  simp only [mkCtx]
  rw [hslot, hsd]
  have hlt : (uniqueDays carbon).indexOf ((uniqueDays carbon)[d]) < (uniqueDays carbon).length :=
    List.indexOf_lt_length.mpr (List.getElem_mem hd2)
  exact (uniqueDays_nodup carbon).getElem_inj_iff.mp (List.getElem_indexOf hlt)

/-! ### Per-household facts about `hhRun` -/

lemma hhRun_baseline_ge (c : HCtx) (rng : ℕ → ℚ) (hh : Household) (k0 t : ℕ) :
    (0.05 : ℚ) ≤ (hhRun c rng hh k0).baseline t := by
  simp only [hhRun]
  exact le_max_right _ _

/-- Unfolding of the `hhRun` record fields against each other. -/
lemma hhRun_amt_shifted (c : HCtx) (rng : ℕ → ℚ) (hh : Household) (k0 : ℕ) :
    (hhRun c rng hh k0).amt =
      (pass1 c hh rng (hhRun c rng hh k0).baseline (hhRun c rng hh k0).maxDaily
        (k0 + c.n)).amt ∧
    (hhRun c rng hh k0).shifted = pass2All c (hhRun c rng hh k0).amt
      (pass1 c hh rng (hhRun c rng hh k0).baseline (hhRun c rng hh k0).maxDaily
        (k0 + c.n)).shifted := ⟨rfl, rfl⟩

/-- The Pass-1 invariant, instantiated for a run's own baseline. -/
lemma hhRun_inv (c : HCtx) (rng : ℕ → ℚ) (hh : Household) (k0 : ℕ) :
    P1Inv c (hhRun c rng hh k0).baseline
      (pass1 c hh rng (hhRun c rng hh k0).baseline (hhRun c rng hh k0).maxDaily (k0 + c.n)) :=
  pass1_inv c hh rng _ _ _ (hhRun_baseline_ge c rng hh k0)

/-- Recorded curtailment is nonnegative. -/
lemma hhRun_amt_nonneg (c : HCtx) (rng : ℕ → ℚ) (hh : Household) (k0 t : ℕ) :
    0 ≤ (hhRun c rng hh k0).amt t := by
  rw [(hhRun_amt_shifted c rng hh k0).1]
  exact (hhRun_inv c rng hh k0).2.1 t

/-- Recorded curtailment never exceeds the flexible portion of the slot. -/
lemma hhRun_amt_le_flex (c : HCtx) (rng : ℕ → ℚ) (hh : Household) (k0 t : ℕ) :
    (hhRun c rng hh k0).amt t ≤ (hhRun c rng hh k0).baseline t * flexProfile (c.hod t) := by
  rw [(hhRun_amt_shifted c rng hh k0).1]
  exact (hhRun_inv c rng hh k0).2.2.1 t

/-- Curtailment is only recorded at high-carbon slots. -/
lemma hhRun_amt_high (c : HCtx) (rng : ℕ → ℚ) (hh : Household) (k0 t : ℕ)
    (h : (hhRun c rng hh k0).amt t ≠ 0) : HIGH_THRESHOLD ≤ c.intens t := by
  rw [(hhRun_amt_shifted c rng hh k0).1] at h
  exact (hhRun_inv c rng hh k0).2.2.2.2 t h

/-- The final shifted series stays at or above the 0.05 kW floor. -/
lemma hhRun_shifted_ge (c : HCtx) (rng : ℕ → ℚ) (hh : Household) (k0 t : ℕ) :
    (0.05 : ℚ) ≤ (hhRun c rng hh k0).shifted t := by
  obtain ⟨ha, hs⟩ := hhRun_amt_shifted c rng hh k0
  obtain ⟨I1, I5, _, I6, _⟩ := hhRun_inv c rng hh k0
  rw [hs]
  refine le_trans ?_ (pass2All_le c _ _ t (fun v => by rw [ha]; exact I5 v))
  rw [I1 t]
  have h1 := I6 t
  have h2 := hhRun_baseline_ge c rng hh k0 t
  linarith

/-- Per-day energy conservation for one household: over the slots of any
day of the input, the final shifted series sums to the baseline series
(Pass 2 re-adds exactly what Pass 1 curtailed). -/
lemma hhRun_daySum (c : HCtx) (rng : ℕ → ℚ) (hh : Household) (k0 d : ℕ)
    (hd : d < c.nDays) :
    ((daySlotsC c d).map (hhRun c rng hh k0).shifted).sum =
      ((daySlotsC c d).map (hhRun c rng hh k0).baseline).sum := by
  obtain ⟨ha, hs⟩ := hhRun_amt_shifted c rng hh k0
  obtain ⟨I1, I5, _, _, _⟩ := hhRun_inv c rng hh k0
  rw [hs, pass2All_daySum c _ _ d hd (fun v => by rw [ha]; exact I5 v)]
  have hcongr : ∀ u ∈ daySlotsC c d,
      (pass1 c hh rng (hhRun c rng hh k0).baseline (hhRun c rng hh k0).maxDaily
        (k0 + c.n)).shifted u =
      (fun u => (hhRun c rng hh k0).baseline u - (hhRun c rng hh k0).amt u) u := by
    intro u _
    rw [I1 u, ha]
  rw [List.map_congr_left hcongr, sum_map_sub]
  ring

/-! ### Indexing the per-household results -/

lemma runHouseholds_length (c : HCtx) (rng : ℕ → ℚ) :
    ∀ (hs : List Household) (k : ℕ), (runHouseholds c rng hs k).length = hs.length := by
  intro hs
  induction hs with
  | nil => intro k; rfl
  | cons hh hs ih => intro k; simp only [runHouseholds, List.length_cons, ih]

/-- Each entry of the result list is a genuine `hhRun` of the matching
household, at some draw offset. -/
lemma runHouseholds_getD (c : HCtx) (rng : ℕ → ℚ) :
    ∀ (hs : List Household) (k hi : ℕ), hi < hs.length →
      ∃ k0, (runHouseholds c rng hs k).getD hi dHHResult =
        hhRun c rng (hs.getD hi dHousehold) k0 := by
  intro hs
  induction hs with
  | nil => intro k hi h; cases h
  | cons hh hs ih =>
    intro k hi hlt
    cases hi with
    | zero => exact ⟨k, rfl⟩
    | succ m =>
      obtain ⟨k0, hk⟩ := ih _ m (Nat.lt_of_succ_lt_succ hlt)
      exact ⟨k0, by simpa only [runHouseholds, List.getD_cons_succ] using hk⟩

lemma genHouseholds_length (rng : ℕ → ℚ) : (genHouseholds rng).length = N_HOUSEHOLDS := by
  simp [genHouseholds]

/-- Every in-range household index gives a genuine `hhRun` of the
generated household with that index. -/
lemma resultAt_spec (rng : ℕ → ℚ) (carbon : List SlotRec) (hi : ℕ) (h : hi < N_HOUSEHOLDS) :
    ∃ k0, resultAt rng carbon hi = hhRun (mkCtx carbon) rng (householdAt rng hi) k0 := by
  unfold resultAt hhResults householdAt
  exact runHouseholds_getD (mkCtx carbon) rng (genHouseholds rng) (5 * N_HOUSEHOLDS) hi
    (by rw [genHouseholds_length]; exact h)

/-- Out-of-range household indices give the placeholder result. -/
lemma resultAt_default (rng : ℕ → ℚ) (carbon : List SlotRec) (hi : ℕ)
    (h : N_HOUSEHOLDS ≤ hi) : resultAt rng carbon hi = dHHResult := by
  unfold resultAt
  apply List.getD_eq_default
  unfold hhResults
  rw [runHouseholds_length, genHouseholds_length]
  exact h

/-! ### No-op behaviour when no slot is high-carbon -/

lemma foldl_id {α β : Type _} (f : α → β → α) (l : List β) (x : α)
    (h : ∀ y b, f y b = y) : l.foldl f x = x := by
  induction l generalizing x with
  | nil => rfl
  | cons a l ih => rw [List.foldl_cons, h x a]; exact ih x

/-- With every intensity below the threshold, each Pass-1 iteration skips
at its first test. -/
lemma pass1_all_low (c : HCtx) (hh : Household) (rng baseline : ℕ → ℚ) (maxDaily : ℚ)
    (k0 : ℕ) (h : ∀ t, c.intens t < HIGH_THRESHOLD) :
    pass1 c hh rng baseline maxDaily k0 =
      { responded := fun _ => none, energy := fun _ => 0, shifted := baseline
        amt := fun _ => 0, k := k0 } := by
  unfold pass1
  exact foldl_id _ _ _ (fun st t => by simp only [pass1Step, if_pos (h t)])

/-- With an identically-zero curtailment record, Pass 2 is the identity. -/
lemma pass2All_zero (c : HCtx) (amt s : ℕ → ℚ) (h : ∀ v, amt v = 0) :
    pass2All c amt s = s := by
  unfold pass2All
  refine foldl_id _ _ _ (fun y d => ?_)
  simp only [pass2Day]
  rw [if_pos]
  have hz : ((daySlotsC c d).map amt).sum = 0 :=
    List.sum_eq_zero (fun x hx => by
      obtain ⟨v, _, rfl⟩ := List.mem_map.mp hx
      exact h v)
  rw [hz]
  norm_num

/-- With every intensity below the threshold, a household run records no
curtailment and keeps its baseline. -/
lemma hhRun_all_low (c : HCtx) (rng : ℕ → ℚ) (hh : Household) (k0 : ℕ)
    (h : ∀ t, c.intens t < HIGH_THRESHOLD) :
    (hhRun c rng hh k0).amt = (fun _ => 0) ∧
    (hhRun c rng hh k0).shifted = (hhRun c rng hh k0).baseline := by
  obtain ⟨ha, hs⟩ := hhRun_amt_shifted c rng hh k0
  rw [pass1_all_low c hh rng _ _ _ h] at ha hs
  refine ⟨ha, ?_⟩
  rw [hs, pass2All_zero c _ _ (fun v => by rw [ha])]

/-! ### Rounding bound for the participation threshold -/

/-- Rounding to three decimals cannot drop a value strictly above 0.001
below 0.001. -/
lemma pyRound3_ge (x : ℚ) (h : (0.001 : ℚ) < x) : (0.001 : ℚ) ≤ pyRound 3 x := by
  unfold pyRound
  have h1 : (1 : ℤ) ≤ round (x * (10 : ℚ) ^ 3) := by
    rw [round_eq]
    refine Int.le_floor.mpr ?_
    push_cast
    norm_num at h ⊢
    linarith
  rw [le_div_iff (by positivity)]
  have h2 : ((1 : ℤ) : ℚ) ≤ ((round (x * (10 : ℚ) ^ 3) : ℤ) : ℚ) := Int.cast_le.mpr h1
  push_cast at h2
  norm_num at h2 ⊢
  linarith

/-! ### Concrete inputs for witnesses and counterexamples -/

/-- The all-zero draw stream (every normal draw at the mean, every uniform
draw at the low end, guaranteed daily response since `0 < p_respond`). -/
def rngZero : ℕ → ℚ := fun _ => 0

/-- A one-day two-slot input: a high-carbon slot (actual 200) followed by
a low-carbon slot (actual 100). -/
def carbonW : List SlotRec := [⟨0, 0, some 200, none⟩, ⟨1, 0, some 100, none⟩]

/-- A draw stream whose household 0 gets the minimum peak demand (normal
draw at `-2.5` sigma) and whose single noise draw (index 125) scales that
household's only baseline sample down to `0.0512` kW, `0.0012` above the
floor. -/
def rngC8 : ℕ → ℚ := fun k => if k = 0 then -5 / 2 else if k = 125 then -236 / 15 else 0

/-- A single one-day high-carbon slot (actual 200). -/
def carbonC8 : List SlotRec := [⟨0, 0, some 200, none⟩]

/-- A single one-day low-carbon slot (actual 100). -/
def carbonLow : List SlotRec := [⟨0, 0, some 100, none⟩]

/-- Placeholder event for list indexing in witnesses. -/
def dEvent : SlotEvent := ⟨0, 0, false, [], 0⟩

/-- Placeholder participant for list indexing in witnesses. -/
def dParticipant : Participant := ⟨0, 0⟩

/-! ### Claim theorems -/

/-- C1: for every household and every day of the input that contains at
least one low-carbon reallocation target slot (a slot below that day's
median intensity), the total shifted energy over the day's slots
(`Σ shifted[t]*0.5`) equals the total baseline energy over the same slots
(`Σ baseline[t]*0.5`) exactly: Pass 2 re-adds exactly the curtailed energy
of the day. -/
theorem daily_energy_conservation (rng : ℕ → ℚ) (carbon : List SlotRec) (hi d : ℕ)
    (hlow : ∃ t ∈ daySlotsC (mkCtx carbon) d, (mkCtx carbon).intens t <
      npMedian ((daySlotsC (mkCtx carbon) d).map (mkCtx carbon).intens)) :
    ((daySlotsC (mkCtx carbon) d).map (resultAt rng carbon hi).shifted).sum * 0.5 =
      ((daySlotsC (mkCtx carbon) d).map (resultAt rng carbon hi).baseline).sum * 0.5 := by
  obtain ⟨t, ht, _⟩ := hlow
  have hd : d < (mkCtx carbon).nDays := by
    obtain ⟨htn, htd⟩ := mem_daySlots.mp ht
    exact htd ▸ dayOf_lt_nDays htn
  by_cases h25 : hi < N_HOUSEHOLDS
  · obtain ⟨k0, hk⟩ := resultAt_spec rng carbon hi h25
    rw [hk, hhRun_daySum (mkCtx carbon) rng _ k0 d hd]
  · rw [resultAt_default rng carbon hi (le_of_not_lt h25)]
    rfl

/-- Witness for C1 at a concrete run: one day with a high-carbon and a
below-median slot. -/
theorem daily_energy_conservation_witness :
    (∃ t ∈ daySlotsC (mkCtx carbonW) 0, (mkCtx carbonW).intens t <
      npMedian ((daySlotsC (mkCtx carbonW) 0).map (mkCtx carbonW).intens)) ∧
    ((daySlotsC (mkCtx carbonW) 0).map (resultAt rngZero carbonW 0).shifted).sum * 0.5 =
      ((daySlotsC (mkCtx carbonW) 0).map (resultAt rngZero carbonW 0).baseline).sum * 0.5 :=
  ⟨by with_unfolding_all decide, daily_energy_conservation rngZero carbonW 0 0
    (by with_unfolding_all decide)⟩

/-- C2 counterexample: at a concrete run the Pass-1 per-day budget is not
`max_shift_fraction * weekly_kWh / days` — the source divides the sum of
the half-hourly kW samples, which is twice the weekly energy in kWh. -/
theorem weekly_budget_kwh_cex :
    maxDailyAt rngZero carbonW 0 ≠ specWeeklyKwhBudget rngZero carbonW 0 := by
  with_unfolding_all decide

/-- C2 (amended): the per-day budget equals `max_shift_fraction` times
twice the household's total weekly baseline energy in kWh, divided by the
number of unique days (i.e. the fraction times the week's summed kW
samples over the day count); it is a single per-household constant, the
same for every day of that household's week. -/
theorem daily_budget_formula (rng : ℕ → ℚ) (carbon : List SlotRec) (hi : ℕ)
    (h : hi < N_HOUSEHOLDS) :
    maxDailyAt rng carbon hi =
      (householdAt rng hi).max_shift_fraction * (2 * weeklyBaselineKwh rng carbon hi) /
        ((mkCtx carbon).nDays : ℚ) := by
  obtain ⟨k0, hk⟩ := resultAt_spec rng carbon hi h
  unfold maxDailyAt weeklyBaselineKwh
  rw [hk]
  simp only [hhRun]
  ring

/-- Witness for C2's amended budget formula at a concrete run. -/
theorem daily_budget_formula_witness :
    maxDailyAt rngZero carbonW 0 =
      (householdAt rngZero 0).max_shift_fraction * (2 * weeklyBaselineKwh rngZero carbonW 0) /
        ((mkCtx carbonW).nDays : ℚ) :=
  daily_budget_formula rngZero carbonW 0 (by decide)

/-- C3 counterexample: with an empty input the unique-day count is zero —
the denominator of the per-day budget division — and the run raises
(`ValueError` from `np.max` on the empty aggregate) instead of recovering
with a zero or no-op. -/
theorem empty_input_raises_cex :
    (mkCtx ([] : List SlotRec)).nDays = 0 ∧
    simulate rngZero [] = Except.error emptyArrayMsg := ⟨rfl, rfl⟩

/-- C3 (amended): on any nonempty input the degenerate cases are recovered
locally and the run completes without raising; the hours-budget division
guards its denominator (`max(peak_demand, 0.1)` is at least 0.1) and the
Pass-2 spread division always has a nonempty target list on any day that
owns a slot.  The zero-day-count case is the one exception: it happens
exactly for the empty input, which errors at the peak computation (the
budget division by the day count itself has no guard). -/
theorem degenerate_guards (rng : ℕ → ℚ) (carbon : List SlotRec) :
    (carbon ≠ [] → ∃ out, simulate rng carbon = Except.ok out) ∧
    (∀ hh : Household, (0.1 : ℚ) ≤ max hh.peak_demand_kw 0.1) ∧
    (∀ d, daySlotsC (mkCtx carbon) d ≠ [] → targetsC (mkCtx carbon) d ≠ []) ∧
    (carbon = [] → simulate rng carbon = Except.error emptyArrayMsg) := by
  refine ⟨fun hne => ?_, fun hh => le_max_right _ _,
    fun d h => targetsC_ne_nil _ d h, fun he => ?_⟩
  · simp only [simulate]
    rw [if_neg fun h => hne (List.length_eq_zero.mp h)]
    exact ⟨_, rfl⟩
  · subst he; rfl

/-- Witness for C3's amended statement: a nonempty input completes. -/
theorem degenerate_guards_witness :
    ∃ out, simulate rngZero carbonW = Except.ok out :=
  (degenerate_guards rngZero carbonW).1 (by with_unfolding_all decide)

/-- C4 counterexample: a slot with `actual` present and equal to 0 and
`forecast = 100` is read as 100, not 0 — Python's `or` treats the number
0 like a missing value, contradicting "actual whenever present and
non-null (including when it is 0)". -/
theorem intensity_zero_actual_cex :
    usedIntensity (some 0) (some 100) = 100 ∧ (100 : ℚ) ≠ 0 :=
  ⟨rfl, by norm_num⟩

/-- C4 (amended): the engine uses `actual` whenever it is present,
non-null and nonzero; a present-but-zero `actual` falls through like a
missing one, to `forecast` when present and else to 0. -/
theorem intensity_fallback (x : ℚ) (f : Option ℚ) :
    (x ≠ 0 → usedIntensity (some x) f = x) ∧
    usedIntensity (some 0) f = f.getD 0 ∧
    usedIntensity none f = f.getD 0 := by
  refine ⟨fun hx => ?_, ?_, rfl⟩
  · simp [usedIntensity, hx]
  · simp [usedIntensity]

/-- Witness for C4's amended fallback order at concrete intensities. -/
theorem intensity_fallback_witness :
    usedIntensity (some 200) (some 100) = 200 ∧ usedIntensity none (some 100) = 100 :=
  ⟨(intensity_fallback 200 (some 100)).1 (by norm_num), (intensity_fallback 200 (some 100)).2.2⟩

/-- C5: a positive recorded curtailment at a slot implies the slot is
high-carbon (`intensity ≥ 150`); below the threshold `shift_amount`
stays 0. -/
theorem curtail_only_high_carbon (rng : ℕ → ℚ) (carbon : List SlotRec) (hi t : ℕ)
    (h : 0 < amtAt rng carbon hi t) : HIGH_THRESHOLD ≤ (mkCtx carbon).intens t := by
  unfold amtAt at h
  by_cases h25 : hi < N_HOUSEHOLDS
  · obtain ⟨k0, hk⟩ := resultAt_spec rng carbon hi h25
    rw [hk] at h
    exact hhRun_amt_high (mkCtx carbon) rng _ k0 t (ne_of_gt h)
  · rw [resultAt_default rng carbon hi (le_of_not_lt h25)] at h
    exact absurd h (lt_irrefl 0)

/-- Witness for C5: a slot actually curtailed in a concrete run. -/
theorem curtail_only_high_carbon_witness :
    0 < amtAt rngZero carbonW 0 0 ∧ HIGH_THRESHOLD ≤ (mkCtx carbonW).intens 0 :=
  ⟨by with_unfolding_all decide, curtail_only_high_carbon rngZero carbonW 0 0
    (by with_unfolding_all decide)⟩

/-- C6: every household's final shifted value is at least 0.05 kW at every
slot: Pass 1 floors curtailed slots at 0.05, the baseline is clipped at
0.05, and Pass 2 only adds nonnegative energy. -/
theorem shifted_floor (rng : ℕ → ℚ) (carbon : List SlotRec) (hi t : ℕ)
    (h : hi < N_HOUSEHOLDS) : (0.05 : ℚ) ≤ (resultAt rng carbon hi).shifted t := by
  obtain ⟨k0, hk⟩ := resultAt_spec rng carbon hi h
  rw [hk]
  exact hhRun_shifted_ge (mkCtx carbon) rng _ k0 t

/-- Witness for C6 at a concrete run. -/
theorem shifted_floor_witness : (0.05 : ℚ) ≤ (resultAt rngZero carbonW 0).shifted 0 :=
  shifted_floor rngZero carbonW 0 0 (by decide)

/-- C7: determinism, stated as a two-run equality of the embedded
simulation: runs with the same seed (draw stream) and the same
carbon-intensity input produce identical outputs — household parameter
records, baseline, shifted and shift_amount series included. -/
theorem simulate_deterministic (rng1 rng2 : ℕ → ℚ) (carbon1 carbon2 : List SlotRec)
    (hr : rng1 = rng2) (hc : carbon1 = carbon2) :
    simulate rng1 carbon1 = simulate rng2 carbon2 ∧
    genHouseholds rng1 = genHouseholds rng2 := by
  subst hr
  subst hc
  exact ⟨rfl, rfl⟩

/-- Witness for C7 at a concrete seed and input. -/
theorem simulate_deterministic_witness :
    simulate rngZero carbonW = simulate rngZero carbonW ∧
    genHouseholds rngZero = genHouseholds rngZero :=
  simulate_deterministic rngZero rngZero carbonW carbonW rfl rfl

set_option maxRecDepth 100000 in
/-- C8 counterexample: a slot event with a participant entry whose
recorded `shifted_kw` is not strictly greater than 0.001 kW: the filter
admits a raw `shift_amount` of 0.0012 kW and `round(·, 3)` records it as
exactly 0.001. -/
theorem participant_threshold_cex :
    ∃ ev ∈ flexEvents rngC8 carbonC8, ∃ p ∈ ev.participants, p.shifted_kw ≤ 0.001 := by
  with_unfolding_all decide

/-- C8 (amended): every participant entry in every slot event has a
recorded `shifted_kw` of at least 0.001 kW — the underlying filter demands
a raw `shift_amount` strictly above 0.001, and rounding to three decimals
can lower the recorded value to exactly 0.001 but no further. -/
theorem participant_threshold_rounded (rng : ℕ → ℚ) (carbon : List SlotRec)
    (ev : SlotEvent) (p : Participant) (hev : ev ∈ flexEvents rng carbon)
    (hp : p ∈ ev.participants) : (0.001 : ℚ) ≤ p.shifted_kw := by
  simp only [flexEvents] at hev
  obtain ⟨t, _, hev2⟩ := List.mem_map.mp hev
  subst hev2
  dsimp only at hp
  by_cases hhigh : (150 : ℤ) ≤ pyInt ((mkCtx carbon).intens t)
  · rw [if_pos (by simpa using hhigh)] at hp
    simp only [slotParticipants] at hp
    obtain ⟨hi, _, hpp⟩ := List.mem_filterMap.mp hp
    by_cases hsk : (0.001 : ℚ) < amtAt rng carbon hi t
    · rw [if_pos hsk] at hpp
      cases hpp.symm.trans rfl
      injection hpp with hpp2
      rw [← hpp2]
      exact pyRound3_ge _ hsk
    · rw [if_neg hsk] at hpp
      cases hpp
  · rw [if_neg (by simpa using hhigh)] at hp
    cases hp

set_option maxRecDepth 100000 in
/-- Witness for C8's amended bound at the concrete counterexample run. -/
theorem participant_threshold_rounded_witness :
    (0.001 : ℚ) ≤
      (((flexEvents rngC8 carbonC8).getD 0 dEvent).participants.getD 0 dParticipant).shifted_kw :=
  participant_threshold_rounded rngC8 carbonC8 ((flexEvents rngC8 carbonC8).getD 0 dEvent)
    (((flexEvents rngC8 carbonC8).getD 0 dEvent).participants.getD 0 dParticipant)
    (by with_unfolding_all decide) (by with_unfolding_all decide)

/-- With every input slot's intensity below the threshold, every slot
index reads a below-threshold intensity (out-of-range indices read 0). -/
lemma intens_all_low (carbon : List SlotRec)
    (hlow : ∀ s ∈ carbon, usedIntensity s.actualI s.forecastI < HIGH_THRESHOLD) :
    ∀ t, (mkCtx carbon).intens t < HIGH_THRESHOLD := by
  intro t
  by_cases ht : t < carbon.length
  · exact hlow _ (slotAt_mem ht)
  · have hdef : slotAt carbon t = defaultSlot := by
      unfold slotAt
      exact List.getD_eq_default _ _ (le_of_not_lt ht)
    simp only [mkCtx, hdef, defaultSlot]
    norm_num [usedIntensity, HIGH_THRESHOLD]

/-- C9: if every slot's used intensity is below 150, no curtailment is
recorded for any household at any slot, every household's reward total
(hence its `tokens_earned`) is zero, and any summary the run produces
reports `peak_demand_reduction_pct = 0`. -/
theorem zero_high_carbon_week (rng : ℕ → ℚ) (carbon : List SlotRec)
    (hlow : ∀ s ∈ carbon, usedIntensity s.actualI s.forecastI < HIGH_THRESHOLD) :
    (∀ hi t, amtAt rng carbon hi t = 0) ∧
    (∀ hi, hhRewards rng carbon hi = 0) ∧
    (∀ out, simulate rng carbon = Except.ok out →
      out.summary.peak_demand_reduction_pct = 0) := by
  have hint := intens_all_low carbon hlow
  have hamt : ∀ hi t, amtAt rng carbon hi t = 0 := by
    intro hi t
    unfold amtAt
    by_cases h25 : hi < N_HOUSEHOLDS
    · obtain ⟨k0, hk⟩ := resultAt_spec rng carbon hi h25
      rw [hk, (hhRun_all_low (mkCtx carbon) rng _ k0 hint).1]
    · rw [resultAt_default rng carbon hi (le_of_not_lt h25)]; rfl
  have hshift : ∀ hi, (resultAt rng carbon hi).shifted = (resultAt rng carbon hi).baseline := by
    intro hi
    by_cases h25 : hi < N_HOUSEHOLDS
    · obtain ⟨k0, hk⟩ := resultAt_spec rng carbon hi h25
      rw [hk]
      exact (hhRun_all_low (mkCtx carbon) rng _ k0 hint).2
    · rw [resultAt_default rng carbon hi (le_of_not_lt h25)]; rfl
  refine ⟨hamt, fun hi => ?_, fun out hout => ?_⟩
  · simp only [hhRewards]
    refine List.sum_eq_zero (fun x hx => ?_)
    obtain ⟨d, _, rfl⟩ := List.mem_map.mp hx
    refine List.sum_eq_zero (fun y hy => ?_)
    obtain ⟨t, _, rfl⟩ := List.mem_map.mp hy
    simp [hamt hi t]
  · have hagg : aggShiftedL rng carbon = aggBaselineL rng carbon := by
      unfold aggShiftedL aggBaselineL
      refine List.map_congr_left (fun t _ => ?_)
      refine congrArg List.sum (List.map_congr_left (fun hi _ => ?_))
      rw [hshift hi]
    by_cases hemp : carbon.length = 0
    · simp only [simulate] at hout
      rw [if_pos hemp] at hout
      exact Except.noConfusion hout
    · simp only [simulate] at hout
      rw [if_neg hemp] at hout
      injection hout with hrec
      rw [← hrec]
      dsimp only
      rw [hagg]
      split_ifs with hpb
      · rw [div_self (ne_of_gt hpb)]
        norm_num [pyRound]
      · rfl

/-- Witness for C9 at a concrete all-low-carbon input. -/
theorem zero_high_carbon_week_witness :
    amtAt rngZero carbonLow 0 0 = 0 ∧ hhRewards rngZero carbonLow 0 = 0 :=
  ⟨(zero_high_carbon_week rngZero carbonLow (by with_unfolding_all decide)).1 0 0,
   (zero_high_carbon_week rngZero carbonLow (by with_unfolding_all decide)).2.1 0⟩

/-- C10: recorded curtailment never exceeds the flexible portion of the
slot's baseline: `shift_amount[hi,t] ≤ baseline[hi,t] * flexible_fraction(hod t)`
— Pass 1 caps the curtailed kW at the flexible availability, and the
0.05 kW floor only shrinks the applied amount. -/
theorem curtail_le_flexible (rng : ℕ → ℚ) (carbon : List SlotRec) (hi t : ℕ) :
    amtAt rng carbon hi t ≤
      (resultAt rng carbon hi).baseline t * flexProfile ((mkCtx carbon).hod t) := by
  unfold amtAt
  by_cases h25 : hi < N_HOUSEHOLDS
  · obtain ⟨k0, hk⟩ := resultAt_spec rng carbon hi h25
    rw [hk]
    exact hhRun_amt_le_flex (mkCtx carbon) rng _ k0 t
  · rw [resultAt_default rng carbon hi (le_of_not_lt h25)]
    simp [dHHResult]

end FlexSim
